/-
  Verification of the Market Analytics & Geospatial Computation Engine
  of the pol-real-estate repository.

  Shallow embedding over the rationals: every numeric quantity of the
  Python source (IEEE doubles there) is modelled as an exact rational.
  The Python builtin round(x, k) rounds half to even on the binary64
  value; since a binary64 value is essentially never an exact decimal
  tie, we idealise it as rounding half up on the exact rational.
  Fallible code (Python exceptions) is modelled with Option / Except.
-/
import Mathlib

/-- Fast embedding of a natural number into the rationals.  (The Nat.cast
coercion is extensionally the same but reduces by unary recursion, which
the kernel cannot evaluate on large arguments; the definitions below use
qn so that they stay kernel-evaluable.) -/
def qn (n : ℕ) : ℚ := Rat.divInt (Int.ofNat n) 1

/-- Fast embedding of an integer into the rationals. -/
def qi (z : ℤ) : ℚ := Rat.divInt z 1

/-- Round half up to the nearest integer (shown below to agree with the
Mathlib round function; written with the structural Rat.floor so that
the kernel can evaluate it). -/
def roundHalfUp (x : ℚ) : ℤ := Rat.floor (x + 1 / 2)

/-- Rounding to 1 decimal place, modelling the Python builtin round(x, 1). -/
def round1 (x : ℚ) : ℚ := Rat.divInt (roundHalfUp (x * qn 10)) 10

/-- Rounding to 2 decimal places, modelling the Python builtin round(x, 2). -/
def round2 (x : ℚ) : ℚ := Rat.divInt (roundHalfUp (x * qn 100)) 100

/-- Rounding to 4 decimal places, modelling the Python builtin round(x, 4). -/
def round4 (x : ℚ) : ℚ := Rat.divInt (roundHalfUp (x * qn 10000)) 10000

/-- Fuel-bounded integer Newton iteration for the integer square root
(structurally recursive so that the kernel can evaluate it). -/
def isqrtGo (n : ℕ) : ℕ → ℕ → ℕ
  | 0, x => x
  | fuel + 1, x =>
    let x2 := (x + n / x) / 2
    if x2 < x then isqrtGo n fuel x2 else x

/-- Integer square-root approximation (the iterate stays ≥ 1 for n ≥ 1). -/
def isqrt (n : ℕ) : ℕ := if n = 0 then 0 else isqrtGo n 128 n

/-- Rational square root approximation standing in for math.sqrt, which
returns the binary64 nearest to the true square root.  We use an
integer square root at 30 fractional bits; for a positive argument the
result is positive, which is the only property the code paths rely on.
For a nonpositive argument we return 0 (math.sqrt raises on negatives;
the engine never calls it on one). -/
def sqrtQ (q : ℚ) : ℚ :=
  if q ≤ 0 then 0
  else qn (isqrt (q.num.toNat * q.den * 2 ^ 60)) / (qn q.den * 2 ^ 30)

-- ── GeometryKernel: map_service.py ────────────────────────────────────

/-- Loop body of map_service._point_in_ring at index i, with j = i - 1
(j = n - 1 at i = 0), acting on the running inside flag. -/
def ringStep (x y : ℚ) (ring : List (ℚ × ℚ)) (inside : Bool) (i : ℕ) : Bool :=
  let n := ring.length
  let vi := ring.getD i (0, 0)
  let vj := ring.getD (if i = 0 then n - 1 else i - 1) (0, 0)
  let xi := vi.1; let yi := vi.2
  let xj := vj.1; let yj := vj.2
  if (decide (yi > y) != decide (yj > y)) &&
      decide (x < (xj - xi) * (y - yi) / (yj - yi) + xi)
  then !inside else inside

/-- Ray-casting point-in-polygon test, translated from
map_service._point_in_ring.  A ring is a list of (lon, lat) vertices. -/
def point_in_ring (x y : ℚ) (ring : List (ℚ × ℚ)) : Bool :=
  (List.range ring.length).foldl (ringStep x y ring) false

/-- Division-checked loop body: none if the edge divisor (yj - yi) would
be zero at the moment the Python code divides by it (the division sits
under the short-circuiting conjunction). -/
def ringStepChecked (x y : ℚ) (ring : List (ℚ × ℚ)) (acc : Option Bool)
    (i : ℕ) : Option Bool :=
  match acc with
  | none => none
  | some inside =>
    let n := ring.length
    let vi := ring.getD i (0, 0)
    let vj := ring.getD (if i = 0 then n - 1 else i - 1) (0, 0)
    let xi := vi.1; let yi := vi.2
    let xj := vj.1; let yj := vj.2
    if decide (yi > y) != decide (yj > y) then
      if yj - yi = 0 then none
      else some (if decide (x < (xj - xi) * (y - yi) / (yj - yi) + xi)
                 then !inside else inside)
    else some inside

/-- Division-checked variant of point_in_ring, used to state that the
source function never divides by zero. -/
def point_in_ring_checked (x y : ℚ) (ring : List (ℚ × ℚ)) : Option Bool :=
  (List.range ring.length).foldl (ringStepChecked x y ring) (some false)

/-- Translated from map_service._point_in_any_polygon. -/
def point_in_any_polygon (x y : ℚ) (rings : List (List (ℚ × ℚ))) : Bool :=
  rings.any (fun ring => point_in_ring x y ring)

/-- GeoJSON geometry as consumed by _extract_polygon_rings: a Polygon is
a list of rings, a MultiPolygon a list of polygons; vertices are
(lon, lat) pairs (the Python code destructures `lon, lat, *_`). -/
inductive GeoJson where
  | polygon (coordinates : List (List (ℚ × ℚ)))
  | multiPolygon (coordinates : List (List (List (ℚ × ℚ))))
  | other
deriving DecidableEq

/-- Translated from map_service._extract_polygon_rings: the outer ring of
a Polygon, or the outer ring of each nonempty member of a MultiPolygon. -/
def extract_polygon_rings : GeoJson → List (List (ℚ × ℚ))
  | .polygon coords =>
    match coords with
    | [] => []
    | outer :: _ => [outer]
  | .multiPolygon coords => coords.filterMap (fun poly => poly.head?)
  | .other => []

/-- Modelled from the spec (§9, design notes): the source relies on the
language-level seeded PRNG (random.Random(42), a Mersenne twister, whose
bit stream is not reproduced here); the spec directs any reimplementation
to use an explicit well-specified linear generator, and only determinism
and the draw interval matter to the claims.  64-bit linear congruential
step (Knuth constants). -/
def lcgNext (s : ℕ) : ℕ := (6364136223846793005 * s + 1442695040888963407) % 2 ^ 64

/-- Modelled from the spec (§9): a uniform draw in [a, b) derived from a
generator state, standing in for rng.uniform(a, b). -/
def uniformFrom (s : ℕ) (a b : ℚ) : ℚ := a + (b - a) * (qn s / 2 ^ 64)

/-- The grid coordinates visited by the Python while loop
`v = lo + c * 0.5; while v < hi: ...; v += c`.  Over exact rationals the
k-th visited value is lo + c/2 + k * c. -/
def gridPositions (lo c : ℚ) (count : ℕ) : List ℚ :=
  (List.range count).map (fun k => lo + c / 2 + qn k * c)

/-- Number of iterations of that while loop for c > 0: the number of
naturals k with lo + c/2 + k*c < hi, which is ⌈(hi - lo)/c - 1/2⌉⁺. -/
def stepCount (lo hi c : ℚ) : ℕ := (Int.ceil ((hi - lo) / c - 1 / 2)).toNat

/-- Inner body of _fill_polygon_with_points: visit each grid cell in row
major order (lat outer, lon inner), draw the lat jitter then the lon
jitter from the PRNG, and keep the point (as (lat, lon), the order the
Python code appends) when it passes the point-in-polygon test. -/
def fillCells (rings : List (List (ℚ × ℚ))) (c : ℚ) :
    List (ℚ × ℚ) → ℕ → List (ℚ × ℚ)
  | [], _ => []
  | (la, lo) :: rest, s =>
    let s1 := lcgNext s
    let jlat := la + uniformFrom s1 (-(c * 3 / 10)) (c * 3 / 10)
    let s2 := lcgNext s1
    let jlon := lo + uniformFrom s2 (-(c * 3 / 10)) (c * 3 / 10)
    let tail := fillCells rings c rest s2
    if point_in_any_polygon jlon jlat rings then (jlat, jlon) :: tail else tail

/-- Translated from map_service._fill_polygon_with_points.  The ambient
argument models whatever global PRNG state exists at call time; the
source discards it by seeding a fresh generator with the constant 42
(`rng = random.Random(42)  # deterministic for caching`), which is what
makes the fill a function of (geometry, target count) alone.  Returns
none where Python raises (min/max over an empty vertex list, or the
ZeroDivisionError at target_count = 0). -/
def fill_polygon_with_points (_ambient : ℕ) (geojson : GeoJson)
    (target_count : ℕ) : Option (List (ℚ × ℚ)) :=
  let polygons := extract_polygon_rings geojson
  if polygons.isEmpty then some []
  else
    let allLons := polygons.flatMap (fun ring => ring.map Prod.fst)
    let allLats := polygons.flatMap (fun ring => ring.map Prod.snd)
    match allLons.min?, allLons.max?, allLats.min?, allLats.max? with
    | some minLon, some maxLon, some minLat, some maxLat =>
      let width := maxLon - minLon
      let height := maxLat - minLat
      if width ≤ 0 ∨ height ≤ 0 then some []
      else if qn target_count * (9 / 5) = 0 then none
      else
        let area := width * height
        let cellSize := sqrtQ (area / (qn target_count * (9 / 5)))
        if cellSize ≤ 0 then some []
        else
          let rows := stepCount minLat maxLat cellSize
          let cols := stepCount minLon maxLon cellSize
          let cells := (gridPositions minLat cellSize rows).flatMap
            (fun la => (gridPositions minLon cellSize cols).map (fun lo => (la, lo)))
          some (fillCells polygons cellSize cells 42)
    | _, _, _, _ => none

-- ── SpatialRenderer weight normalization: map_service.py ─────────────

/-- A raw heatmap point as built by _heatmap_from_listings and
_heatmap_from_polygons: coordinates plus an optional unit price. -/
structure HeatPoint where
  lat : ℚ
  lon : ℚ
  price_m2 : Option ℚ
deriving DecidableEq

/-- An output heatmap point with a display weight. -/
structure WeightedPoint where
  lat : ℚ
  lon : ℚ
  weight : ℚ
deriving DecidableEq

/-- Python sorted(set(xs)): the distinct values in ascending order. -/
def sortedUnique (xs : List ℚ) : List ℚ :=
  xs.dedup.insertionSort (· ≤ ·)

/-- Translated from map_service._normalize_weights.  The rank map sends
the i-th of the n sorted distinct prices to i/(n-1) (or the single
distinct price to 0.55); a priced point gets
round(0.15 + rank * 0.85, 4), an unpriced point gets round(0.5, 4). -/
def normalize_weights (points : List HeatPoint) (price_values : List ℚ) :
    List WeightedPoint :=
  if price_values.isEmpty then
    points.map (fun p => ⟨p.lat, p.lon, 1 / 2⟩)
  else
    let su := sortedUnique price_values
    let n := su.length
    let rankMap : ℚ → Option ℚ :=
      if n = 1 then
        fun v => if v = su.headD 0 then some (55 / 100) else none
      else
        fun v => (su.indexOf? v).map (fun i => qn i / (qn n - 1))
    points.map (fun p =>
      match p.price_m2 with
      | some v =>
        let raw := (rankMap v).getD (1 / 2)
        ⟨p.lat, p.lon, round4 (15 / 100 + raw * (85 / 100))⟩
      | none => ⟨p.lat, p.lon, round4 (1 / 2)⟩)

-- ── FinancialSimulator: analytics_service.py ─────────────────────────

/-- Translated from analytics_service._compute_npv:
sum of cf_t / (1 + rate)^t over the enumerated cash flows. -/
def compute_npv (rate : ℚ) (cash_flows : List ℚ) : ℚ :=
  ((cash_flows.enum).map (fun tc => tc.2 / (1 + rate) ^ tc.1)).sum

/-- NPV and its derivative at a guess rate, as accumulated inside the
Newton loop of _compute_irr; none models the early `return None` on a
zero denominator (guess = -1). -/
def npvAndDeriv (guess : ℚ) : List ℚ → ℕ → Option (ℚ × ℚ)
  | [], _ => some (0, 0)
  | cf :: rest, t =>
    let denom := (1 + guess) ^ t
    if denom = 0 then none
    else
      match npvAndDeriv guess rest (t + 1) with
      | none => none
      | some (npv, dNpv) =>
        some (cf / denom + npv,
          if 0 < t then dNpv - qn t * cf / (1 + guess) ^ (t + 1) else dNpv)

/-- The Newton-Raphson iteration of _compute_irr with explicit fuel
(the Python for-loop runs max_iterations times and then returns None). -/
def irrLoop (cash_flows : List ℚ) (guess : ℚ) : ℕ → Option ℚ
  | 0 => none
  | fuel + 1 =>
    match npvAndDeriv guess cash_flows 0 with
    | none => none
    | some (npv, dNpv) =>
      if |dNpv| < 1 / 10 ^ 14 then none
      else
        let newGuess := guess - npv / dNpv
        if |newGuess - guess| < 1 / 10 ^ 7 then some newGuess
        else irrLoop cash_flows newGuess fuel

/-- Translated from analytics_service._compute_irr: Newton-Raphson from
the initial guess 0.10, at most 200 iterations, tolerance 1e-7. -/
def compute_irr (cash_flows : List ℚ) : Option ℚ :=
  irrLoop cash_flows (1 / 10) 200

/-- Input parameters of simulate_roi, after the float(...) coercions;
percentages are as supplied by the caller (divided by 100 inside). -/
structure ROIParams where
  purchase_price_usd : ℚ
  monthly_rent_usd : ℚ
  holding_period_years : ℤ
  annual_appreciation_pct : ℚ
  annual_expenses_pct : ℚ
  vacancy_rate_pct : ℚ
  closing_costs_pct : ℚ
  annual_rent_increase_pct : ℚ
deriving DecidableEq

/-- One entry of yearly_cashflows (fields rounded as in the source;
sale_proceeds is None when the raw value is falsy, i.e. zero). -/
structure YearCashflow where
  year : ℕ
  gross_rent : ℚ
  effective_rent : ℚ
  expenses : ℚ
  net_income : ℚ
  property_value : ℚ
  sale_proceeds : Option ℚ
  total_cash_flow : ℚ
deriving DecidableEq

/-- Accumulated result of the year loop of simulate_roi. -/
structure RoiLoopOut where
  flows : List ℚ
  rows : List YearCashflow
  rentSum : ℚ
  expSum : ℚ
  finalValue : ℚ
deriving DecidableEq

/-- The year loop of simulate_roi (years yearsLeft .. driven with the
running year counter, current rent and current property value as
explicit state).  Expenses use the pre-appreciation property value;
appreciation is applied before the sale-proceeds test; rent escalates
for the next iteration. -/
def roiLoop (vac expPct app ccp ri : ℚ) (total : ℕ) :
    ℕ → ℕ → ℚ → ℚ → RoiLoopOut
  | 0, _, _, value => ⟨[], [], 0, 0, value⟩
  | left + 1, year, rent, value =>
    let grossRent := rent * 12
    let effectiveRent := grossRent * (1 - vac)
    let annualExpenses := value * expPct
    let netIncome := effectiveRent - annualExpenses
    let value2 := value * (1 + app)
    let saleProceeds := if year = total then value2 * (1 - ccp) else 0
    let annualCF := netIncome + saleProceeds
    let row : YearCashflow :=
      ⟨year, round2 grossRent, round2 effectiveRent, round2 annualExpenses,
        round2 netIncome, round2 value2,
        (if saleProceeds ≠ 0 then some (round2 saleProceeds) else none),
        round2 annualCF⟩
    let rest := roiLoop vac expPct app ccp ri total left (year + 1)
      (rent * (1 + ri)) value2
    ⟨annualCF :: rest.flows, row :: rest.rows,
      effectiveRent + rest.rentSum, annualExpenses + rest.expSum,
      rest.finalValue⟩

/-- The cash-flow vector cash_flows_for_irr built by simulate_roi:
initial outlay (negative) followed by the per-year flows. -/
def cashFlowsFor (p : ROIParams) : List ℚ :=
  let ccp := p.closing_costs_pct / 100
  let initialCost := p.purchase_price_usd * (1 + ccp)
  let years := p.holding_period_years.toNat
  let flows :=
    (roiLoop (p.vacancy_rate_pct / 100) (p.annual_expenses_pct / 100)
      (p.annual_appreciation_pct / 100) ccp
      (p.annual_rent_increase_pct / 100) years years 1
      p.monthly_rent_usd p.purchase_price_usd).flows
  List.cons (-initialCost) flows

/-- The result dictionary of simulate_roi. -/
structure ROIResult where
  initial_investment : ℚ
  final_property_value : ℚ
  total_rental_income : ℚ
  total_expenses : ℚ
  total_return_pct : ℚ
  irr_pct : Option ℚ
  npv_at_8pct : ℚ
  holding_period_years : ℤ
  yearly_cashflows : List YearCashflow
deriving DecidableEq

/-- Translated from analytics_service.simulate_roi.  Raises (models as
Except.error) unless purchase price, monthly rent and holding period are
positive; otherwise runs the year loop, computes IRR (optional), total
return and NPV at the fixed 8 percent discount rate. -/
def simulate_roi (p : ROIParams) : Except String ROIResult :=
  let purchase := p.purchase_price_usd
  let rent := p.monthly_rent_usd
  let app := p.annual_appreciation_pct / 100
  let expPct := p.annual_expenses_pct / 100
  let vac := p.vacancy_rate_pct / 100
  let ccp := p.closing_costs_pct / 100
  let ri := p.annual_rent_increase_pct / 100
  if purchase ≤ 0 ∨ rent ≤ 0 ∨ p.holding_period_years ≤ 0 then
    .error "purchase_price_usd, monthly_rent_usd, and holding_period_years must be positive"
  else
    let years := p.holding_period_years.toNat
    let initialCost := purchase * (1 + ccp)
    let L := roiLoop vac expPct app ccp ri years years 1 rent purchase
    let cashFlows := cashFlowsFor p
    let irr := compute_irr cashFlows
    let totalCashIn := L.flows.sum
    let totalReturn := (totalCashIn - initialCost) / initialCost * 100
    let npv := compute_npv (8 / 100) cashFlows
    .ok ⟨round2 initialCost, round2 L.finalValue, round2 L.rentSum,
      round2 L.expSum, round2 totalReturn,
      irr.map (fun r => round2 (r * 100)), round2 npv,
      p.holding_period_years, L.rows⟩

-- ── StatsKernel histogram: analytics_service.get_price_distribution ──

/-- A listing row with the fields the aggregation and histogram code
reads.  Timestamps are modelled as integer day ordinals (the SQL applies
func.date to them before comparing against a date). -/
structure ListingRow where
  barrio_id : ℕ
  operation_type : String
  is_active : Bool
  price_usd_blue : Option ℚ
  surface_covered_m2 : Option ℚ
  days_on_market : Option ℚ
  first_seen_date : ℤ
  last_seen_date : ℤ
deriving DecidableEq

/-- One output bin of get_price_distribution. -/
structure HistBin where
  lower : ℚ
  upper : ℚ
  count : ℕ
deriving DecidableEq

/-- The output payload of get_price_distribution (bin_width is absent
from the empty and degenerate payloads). -/
structure PriceDistribution where
  bins : List HistBin
  total : ℕ
  bin_width : Option ℚ
deriving DecidableEq

/-- PostgreSQL width_bucket(v, lo, hi, count) for lo < hi: 0 below lo,
count + 1 at or above hi, otherwise 1 + floor((v - lo)/(hi - lo) * count).
The SQL expression in the source lives inside get_price_distribution. -/
def widthBucket (v lo hi : ℚ) (count : ℕ) : ℕ :=
  if v < lo then 0
  else if hi ≤ v then count + 1
  else (Rat.floor ((v - lo) / (hi - lo) * qn count)).toNat + 1

/-- The filter shared by both queries of get_price_distribution: active,
non-null positive price, and the optional barrio filter. -/
def pdQualifies (barrioFilter : Option ℕ) (l : ListingRow) : Bool :=
  l.is_active &&
    (match l.price_usd_blue with
     | some p => decide (0 < p)
     | none => false) &&
    (match barrioFilter with
     | some b => l.barrio_id == b
     | none => true)

/-- The qualifying prices seen by get_price_distribution. -/
def pdPrices (listings : List ListingRow) (barrioFilter : Option ℕ) : List ℚ :=
  (listings.filter (pdQualifies barrioFilter)).filterMap (fun l => l.price_usd_blue)

/-- Translated from analytics_service.get_price_distribution.  With no
qualifying row the payload is empty; with zero bin width a single bin
[min, max] carries the whole count; otherwise width_bucket over
[min, max + 0.01] assigns each price to one of the `bins` buckets.
(The caller bounds bins to [5, 100]; bins = 0 would raise
ZeroDivisionError in Python and is excluded by the theorems.) -/
def get_price_distribution (listings : List ListingRow)
    (barrioFilter : Option ℕ) (bins : ℕ) : PriceDistribution :=
  let prices := pdPrices listings barrioFilter
  match prices.min?, prices.max? with
  | some minPrice, some maxPrice =>
    let total := prices.length
    let binWidth := (maxPrice - minPrice) / qn bins
    if binWidth ≤ 0 then ⟨[⟨minPrice, maxPrice, total⟩], total, none⟩
    else
      let bucketOf := fun (v : ℚ) => widthBucket v minPrice (maxPrice + 1 / 100) bins
      let binData := (List.range bins).map (fun j =>
        let lower := minPrice + qn j * binWidth
        let upper := minPrice + (qn j + 1) * binWidth
        HistBin.mk (round2 lower) (round2 upper)
          ((prices.filter (fun v => bucketOf v = j + 1)).length))
      ⟨binData, total, some (round2 binWidth)⟩
  | _, _ => ⟨[], 0, none⟩

-- ── MarketAggregator: snapshot_tasks.py ──────────────────────────────

/-- PERCENTILE_CONT(p) WITHIN GROUP (ORDER BY v): linear-interpolation
percentile over the sorted values; none on an empty input.  This is the
semantics of the SQL aggregate used by _compute_snapshot_for_group. -/
def percentileCont (values : List ℚ) (p : ℚ) : Option ℚ :=
  let sorted := values.insertionSort (· ≤ ·)
  match sorted with
  | [] => none
  | _ =>
    let n := sorted.length
    let idx := p * (qn n - 1)
    let lo := (Rat.floor idx).toNat
    let hi := (Rat.ceil idx).toNat
    let vlo := sorted.getD lo 0
    let vhi := sorted.getD hi 0
    some (vlo + (idx - qn lo) * (vhi - vlo))

/-- Python `round(x, 2) if x else None` on an optional value: zero (and
SQL NULL) map to None. -/
def truthyRound2 (o : Option ℚ) : Option ℚ :=
  match o with
  | some v => if v = 0 then none else some (round2 v)
  | none => none

/-- Python `round(x, 1) if x else None` on an optional value. -/
def truthyRound1 (o : Option ℚ) : Option ℚ :=
  match o with
  | some v => if v = 0 then none else some (round1 v)
  | none => none

/-- The WHERE clause of the stats query of _compute_snapshot_for_group:
active listing of the group with non-null price and non-null positive
covered surface.  (Note: the price is only required non-null, not
positive.) -/
def snapQualifies (bid : ℕ) (op : String) (l : ListingRow) : Bool :=
  l.barrio_id == bid && l.operation_type == op && l.is_active &&
    l.price_usd_blue.isSome &&
    (match l.surface_covered_m2 with
     | some s => decide (0 < s)
     | none => false)

/-- The derived fields of one barrio_snapshots row (the upsert target).
usd_blue_rate is attached by the caller (compute_daily_snapshots adds it
to the dict after this function returns), so the group computation
leaves it none. -/
structure SnapshotData where
  listing_count : ℕ
  median_price_usd_m2 : Option ℚ
  avg_price_usd_m2 : Option ℚ
  p25_price_usd_m2 : Option ℚ
  p75_price_usd_m2 : Option ℚ
  avg_days_on_market : Option ℚ
  new_listings_7d : ℕ
  removed_listings_7d : ℕ
  usd_blue_rate : Option ℚ
deriving DecidableEq

/-- Translated from snapshot_tasks._compute_snapshot_for_group: the SQL
aggregates evaluated over an in-memory list of listing rows.  Returns
none when no row matches the filter (COUNT(*) = 0).  Unit price is
price / covered surface (NULLIF(s, 0) never fires since s > 0 is in the
filter); AVG(days_on_market) skips SQL NULLs. -/
def compute_snapshot_for_group (listings : List ListingRow) (bid : ℕ)
    (op : String) (snapshot_date : ℤ) : Option SnapshotData :=
  let rows := listings.filter (snapQualifies bid op)
  if rows.length = 0 then none
  else
    let unitPrices := rows.map (fun l =>
      (l.price_usd_blue.getD 0) / (l.surface_covered_m2.getD 0))
    let avgPrice := unitPrices.sum / qn rows.length
    let doms := rows.filterMap (fun l => l.days_on_market)
    let avgDom : Option ℚ :=
      if doms.length = 0 then none else some (doms.sum / qn doms.length)
    let sevenDaysAgo := snapshot_date - 7
    let newCount := (listings.filter (fun l =>
      l.barrio_id == bid && l.operation_type == op && l.is_active &&
        decide (sevenDaysAgo ≤ l.first_seen_date))).length
    let removedCount := (listings.filter (fun l =>
      l.barrio_id == bid && l.operation_type == op && !l.is_active &&
        decide (sevenDaysAgo ≤ l.last_seen_date))).length
    some ⟨rows.length,
      truthyRound2 (percentileCont unitPrices (1 / 2)),
      truthyRound2 (some avgPrice),
      truthyRound2 (percentileCont unitPrices (1 / 4)),
      truthyRound2 (percentileCont unitPrices (3 / 4)),
      truthyRound1 avgDom,
      newCount, removedCount, none⟩

/-- Upsert key of a barrio_snapshots row:
(barrio_id, snapshot_date, operation_type, property_type). -/
abbrev SnapKey := ℕ × ℤ × String × Option String

/-- A stored barrio_snapshots row: key, derived fields, and the
rental_yield_estimate column, which the daily task neither writes on
insert nor touches on conflict. -/
structure SnapshotRow where
  key : SnapKey
  data : SnapshotData
  rental_yield_estimate : Option ℚ
deriving DecidableEq

/-- The ON CONFLICT DO UPDATE upsert of compute_daily_snapshots,
modelled (as the spec §9 directs) as replace-if-exists on the key tuple:
an existing row for the key keeps its identity and rental yield but has
every derived field replaced; otherwise a fresh row is appended with a
null rental yield.  (Key equality treats the null property_type as equal
to itself, i.e. the NULLS-NOT-DISTINCT reading of the SQL unique
constraint; actual database NULL mechanics are persistence-layer
concerns outside this engine model.) -/
def upsertSnapshot (store : List SnapshotRow) (k : SnapKey)
    (d : SnapshotData) : List SnapshotRow :=
  if store.any (fun r => r.key = k) then
    store.map (fun r => if r.key = k then { r with data := d } else r)
  else
    store ++ [⟨k, d, none⟩]

/-- The (key, data) pairs the daily task upserts: for each barrio id and
each operation type, in order, the computed group snapshot (skipped when
none) with the blue rate attached and a null property_type in the key. -/
def snapshotPairs (listings : List ListingRow) (barrioIds : List ℕ)
    (opTypes : List String) (today : ℤ) (blueRate : Option ℚ) :
    List (SnapKey × SnapshotData) :=
  barrioIds.flatMap (fun bid =>
    opTypes.filterMap (fun op =>
      (compute_snapshot_for_group listings bid op today).map (fun d =>
        ((bid, today, op, none), { d with usd_blue_rate := blueRate }))))

/-- Translated from snapshot_tasks.compute_daily_snapshots (the loop
body over barrios and operation types, acting on a snapshot store):
upsert each computed group snapshot, skipping groups with no data. -/
def compute_daily_snapshots (listings : List ListingRow)
    (barrioIds : List ℕ) (opTypes : List String) (today : ℤ)
    (blueRate : Option ℚ) (store : List SnapshotRow) : List SnapshotRow :=
  (snapshotPairs listings barrioIds opTypes today blueRate).foldl
    (fun st kd => upsertSnapshot st kd.1 kd.2) store


-- ── Claim-side definitions ───────────────────────────────────────────

/-- The square polygon of spec scenario E. -/
def sqGeo : GeoJson := .polygon [[(0, 0), (0, 10), (10, 10), (10, 0)]]

/-- Claim-side formulation (C2) of the cash-flow vector, written from
the words of the claim: the initial outlay followed, for each year
t = 1..N, by effective rent (rent escalated by (1+rent_increase) per
elapsed year) minus expenses on the pre-appreciation property value,
plus, in the final year only, the sale proceeds on the post-appreciation
value net of closing costs. -/
def specCashFlows (p : ROIParams) : List ℚ :=
  let vac := p.vacancy_rate_pct / 100
  let expPct := p.annual_expenses_pct / 100
  let app := p.annual_appreciation_pct / 100
  let ccp := p.closing_costs_pct / 100
  let ri := p.annual_rent_increase_pct / 100
  let n := p.holding_period_years.toNat
  List.cons (-(p.purchase_price_usd * (1 + ccp)))
    ((List.range n).map (fun k =>
      let grossRent := p.monthly_rent_usd * (1 + ri) ^ k * 12
      let effectiveRent := grossRent * (1 - vac)
      let expensesT := p.purchase_price_usd * (1 + app) ^ k * expPct
      let net := effectiveRent - expensesT
      net + (if k + 1 = n then
        p.purchase_price_usd * (1 + app) ^ n * (1 - ccp) else 0)))

/-- Claim-side predicate (C9): an active listing of the group with
positive price and positive covered area, as the claim words it (the
source filter only requires the price to be non-null). -/
def qualifiesPositive (bid : ℕ) (op : String) (l : ListingRow) : Bool :=
  l.barrio_id == bid && l.operation_type == op && l.is_active &&
    (match l.price_usd_blue with
     | some p => decide (0 < p)
     | none => false) &&
    (match l.surface_covered_m2 with
     | some s => decide (0 < s)
     | none => false)

-- ── Theorems ─────────────────────────────────────────────────────────

lemma qn_eq (n : ℕ) : qn n = (n : ℚ) := by
  rw [qn, Rat.divInt_eq_div]
  norm_num

lemma qi_eq (z : ℤ) : qi z = (z : ℚ) := by
  rw [qi, Rat.divInt_eq_div]
  norm_num

lemma roundHalfUp_eq_round (x : ℚ) : roundHalfUp x = round x := by
  rw [round_eq, roundHalfUp, Rat.floor_def', ← Rat.floor_def]

lemma round1_eq (x : ℚ) : round1 x = ((round (x * 10) : ℤ) : ℚ) / 10 := by
  rw [round1, Rat.divInt_eq_div, roundHalfUp_eq_round, qn_eq]
  norm_num

lemma round2_eq (x : ℚ) : round2 x = ((round (x * 100) : ℤ) : ℚ) / 100 := by
  rw [round2, Rat.divInt_eq_div, roundHalfUp_eq_round, qn_eq]
  norm_num

lemma round4_eq (x : ℚ) : round4 x =
    ((round (x * 10000) : ℤ) : ℚ) / 10000 := by
  rw [round4, Rat.divInt_eq_div, roundHalfUp_eq_round, qn_eq]
  norm_num


lemma ringStepChecked_some (x y : ℚ) (ring : List (ℚ × ℚ)) (b : Bool)
    (i : ℕ) : ringStepChecked x y ring (some b) i =
      some (ringStep x y ring b i) := by
  simp only [ringStepChecked, ringStep]
  set vi := ring.getD i (0, 0) with hvi
  set vj := ring.getD (if i = 0 then ring.length - 1 else i - 1) (0, 0) with hvj
  by_cases hg : (decide (vi.2 > y) != decide (vj.2 > y)) = true
  · have hne : vj.2 - vi.2 ≠ 0 := by
      intro h0
      have h1 : vj.2 = vi.2 := by linarith [sub_eq_zero.mp h0]
      rw [h1] at hg
      simp at hg
    simp [hg, hne]
  · simp [hg]

lemma checked_fold_eq (x y : ℚ) (ring : List (ℚ × ℚ)) :
    ∀ (l : List ℕ) (b : Bool),
      l.foldl (ringStepChecked x y ring) (some b) =
        some (l.foldl (ringStep x y ring) b) := by
  intro l
  induction l with
  | nil => intro b; rfl
  | cons i rest ih =>
    intro b
    rw [List.foldl_cons, List.foldl_cons, ringStepChecked_some]
    exact ih (ringStep x y ring b i)

/-- C10: the ray-casting point-in-ring test is total; the edge divisor
(yj - yi) is consulted only under the straddle guard, which forces it to
be nonzero, so the division-checked evaluation always succeeds and
agrees with the unchecked one; on an empty ring the test is false. -/
theorem c10_point_in_ring_total_no_div_by_zero :
    (∀ x y : ℚ, point_in_ring x y [] = false) ∧
    (∀ (x y : ℚ) (ring : List (ℚ × ℚ)),
      point_in_ring_checked x y ring = some (point_in_ring x y ring)) := by
  constructor
  · intro x y; rfl
  · intro x y ring
    exact checked_fold_eq x y ring (List.range ring.length) false

/-- C5: the polygon fill is a deterministic function of the geometry and
the target count alone — the ambient PRNG state at call time is
irrelevant, because the source seeds a fresh generator with a constant
on every invocation, so two invocations with identical arguments return
identical point lists. -/
theorem c5_fill_polygon_deterministic :
    ∀ (ambient1 ambient2 : ℕ) (geojson : GeoJson) (target_count : ℕ),
      fill_polygon_with_points ambient1 geojson target_count =
        fill_polygon_with_points ambient2 geojson target_count := by
  intro ambient1 ambient2 geojson target_count
  rfl

lemma fillCells_all_inside (rings : List (List (ℚ × ℚ))) (c : ℚ) :
    ∀ (cells : List (ℚ × ℚ)) (s : ℕ) (p : ℚ × ℚ),
      p ∈ fillCells rings c cells s →
        point_in_any_polygon p.2 p.1 rings = true := by
  intro cells
  induction cells with
  | nil =>
    intro s p hp
    simp [fillCells] at hp
  | cons cell rest ih =>
    intro s p hp
    obtain ⟨la, lo⟩ := cell
    simp only [fillCells] at hp
    split at hp
    · rcases List.mem_cons.mp hp with hEq | hTail
      · subst hEq
        assumption
      · exact ih _ p hTail
    · exact ih _ p hp

lemma point_in_ring_square (x y : ℚ)
    (h : point_in_ring x y [(0, 0), (0, 10), (10, 10), (10, 0)] = true) :
    0 ≤ x ∧ x ≤ 10 ∧ 0 ≤ y ∧ y ≤ 10 := by
  rw [show point_in_ring x y [(0, 0), (0, 10), (10, 10), (10, 0)] =
      List.foldl (ringStep x y [(0, 0), (0, 10), (10, 10), (10, 0)]) false
        [0, 1, 2, 3] from rfl] at h
  simp only [List.foldl_cons, List.foldl_nil, ringStep, List.getD] at h
  norm_num at h
  by_cases hy0 : (0 : ℚ) > y <;> by_cases hy10 : (10 : ℚ) > y <;>
    by_cases hx0 : x < 0 <;> by_cases hx10 : x < 10 <;>
    simp [hy0, hy10, hx0, hx10] at h <;>
    exact ⟨by linarith, by linarith, by linarith, by linarith⟩

lemma fill_polygon_all_inside (ambient : ℕ) (geojson : GeoJson)
    (target_count : ℕ) :
    ((fill_polygon_with_points ambient geojson target_count).getD []).all
      (fun q => point_in_any_polygon q.2 q.1
        (extract_polygon_rings geojson)) = true := by
  suffices hs : ∀ pts, fill_polygon_with_points ambient geojson target_count
      = some pts → pts.all (fun q => point_in_any_polygon q.2 q.1
        (extract_polygon_rings geojson)) = true by
    cases hE : fill_polygon_with_points ambient geojson target_count with
    | none => simp
    | some pts => simpa [hE] using hs pts hE
  intro pts hpts
  simp only [fill_polygon_with_points] at hpts
  repeat' split at hpts
  all_goals first
    | (obtain rfl := Option.some.inj hpts
       first
         | rfl
         | exact List.all_eq_true.mpr
             (fun p hp => fillCells_all_inside _ _ _ _ p hp))
    | exact absurd hpts (by simp)

/-- C6: every point the polygon fill returns passes the point-in-polygon
test against the extracted rings; in particular the fill of the square
polygon [(0,0),(0,10),(10,10),(10,0)] at target count 100 succeeds and
every returned point has latitude and longitude within [0, 10]. -/
theorem c6_fill_points_in_polygon :
    (∀ (ambient : ℕ) (geojson : GeoJson) (target_count : ℕ),
      ((fill_polygon_with_points ambient geojson target_count).getD []).all
        (fun q => point_in_any_polygon q.2 q.1
          (extract_polygon_rings geojson)) = true) ∧
    (∃ pts, fill_polygon_with_points 0 sqGeo 100 = some pts) ∧
    ((fill_polygon_with_points 0 sqGeo 100).getD []).all
      (fun q => decide (0 ≤ q.1) && decide (q.1 ≤ 10) &&
        decide (0 ≤ q.2) && decide (q.2 ≤ 10)) = true := by
  refine ⟨fill_polygon_all_inside, by with_unfolding_all exact ⟨_, rfl⟩, ?_⟩
  have h1 := fill_polygon_all_inside 0 sqGeo 100
  rw [List.all_eq_true] at h1 ⊢
  intro q hq
  have h2 := h1 q hq
  have h3 : point_in_ring q.2 q.1 [(0, 0), (0, 10), (10, 10), (10, 0)] = true := by
    simpa [point_in_any_polygon, extract_polygon_rings, sqGeo] using h2
  obtain ⟨hx0, hx10, hy0, hy10⟩ := point_in_ring_square q.2 q.1 h3
  simp [hx0, hx10, hy0, hy10]

set_option maxRecDepth 600000 in
/-- C1 counterexample: the claim says a single distinct price yields
weight 0.55 and that ranked points get exactly 0.15 + (i/(n-1))*0.85.
The code instead assigns rank 0.55 (so weight 0.15 + 0.55*0.85 = 0.6175)
in the single-price case, and rounds every weight to 4 decimals (here
0.15 + (1/3)*0.85 = 13/30 is stored as 0.4333 ≠ 13/30). -/
theorem c1_counterexample :
    (normalize_weights [⟨0, 0, some 7⟩] [7]).map (fun w => w.weight) ≠
      [55 / 100] ∧
    (normalize_weights [⟨0, 0, some 1⟩] [0, 1, 2, 3]).map
      (fun w => w.weight) ≠ [15 / 100 + (1 / 3) * (85 / 100)] := by
  refine ⟨by with_unfolding_all decide, by with_unfolding_all decide⟩

/-- C1 (amended): with a non-empty price list, each output point keeps
its coordinates and gets: weight 1/2 when it has no price; weight
0.6175 = 0.15 + 0.55*0.85 when there is exactly one distinct price equal
to its price; and weight round4(0.15 + (i/(n-1))*0.85) when its price is
the i-th of the n ≥ 2 sorted distinct prices. -/
theorem c1_normalize_weights (ps : List HeatPoint) (pv : List ℚ)
    (hpv : pv ≠ []) :
    (normalize_weights ps pv).length = ps.length ∧
    ∀ (k : ℕ) (p : HeatPoint), ps.get? k = some p →
      ((p.price_m2 = none →
        (normalize_weights ps pv).get? k = some ⟨p.lat, p.lon, 1 / 2⟩) ∧
      (∀ v, p.price_m2 = some v → sortedUnique pv = [v] →
        (normalize_weights ps pv).get? k =
          some ⟨p.lat, p.lon, 6175 / 10000⟩) ∧
      (∀ v i, p.price_m2 = some v → 2 ≤ (sortedUnique pv).length →
        (sortedUnique pv).indexOf? v = some i →
        (normalize_weights ps pv).get? k = some ⟨p.lat, p.lon,
          round4 (15 / 100 +
            ((i : ℚ) / (((sortedUnique pv).length : ℚ) - 1)) * (85 / 100))⟩)) := by
  have hne : pv.isEmpty = false := by
    cases pv with
    | nil => exact absurd rfl hpv
    | cons a l => rfl
  constructor
  · simp [normalize_weights, hne]
  intro k p hk
  obtain ⟨plat, plon, ppm⟩ := p
  refine ⟨?_, ?_, ?_⟩
  · intro hnone
    simp only [HeatPoint.price_m2] at hnone
    subst hnone
    simp only [normalize_weights, hne, Bool.false_eq_true, if_false,
      List.get?_map, hk, Option.map_some]
    have h12 : round4 (2⁻¹) = 2⁻¹ := by
      rw [round4_eq]
      norm_num [round_eq]
    simp [h12]
  · intro v hv hsu
    simp only [HeatPoint.price_m2] at hv
    subst hv
    simp only [normalize_weights, hne, Bool.false_eq_true, if_false,
      List.get?_map, hk, Option.map_some, hsu]
    simp only [List.length_cons, List.length_nil, List.headD_cons, if_pos rfl]
    have h55 : round4 (15 / 100 + 55 / 100 * (85 / 100)) = 6175 / 10000 := by
      rw [round4_eq]
      norm_num [round_eq]
    simp [h55]
  · intro v i hv hlen hidx
    simp only [HeatPoint.price_m2] at hv
    subst hv
    have hn1 : (sortedUnique pv).length ≠ 1 := by omega
    simp only [normalize_weights, hne, Bool.false_eq_true, if_false,
      List.get?_map, hk, Option.map_some, hn1, hidx]
    simp [hn1, hidx, qn_eq]

theorem c1_witness :
    (normalize_weights [⟨1, 2, some 5⟩, ⟨3, 4, none⟩] [9, 5]).get? 1 =
      some ⟨3, 4, 1 / 2⟩ ∧
    (normalize_weights [⟨1, 2, some 5⟩, ⟨3, 4, none⟩] [9, 5]).get? 0 =
      some ⟨1, 2, round4 (15 / 100 +
        (((0 : ℕ) : ℚ) / (((sortedUnique [9, 5]).length : ℚ) - 1)) *
          (85 / 100))⟩ := by
  have h := c1_normalize_weights [⟨1, 2, some 5⟩, ⟨3, 4, none⟩] [9, 5]
    (by simp)
  exact ⟨(h.2 1 ⟨3, 4, none⟩ rfl).1 rfl,
    (h.2 0 ⟨1, 2, some 5⟩ rfl).2.2 5 0 rfl
      (by with_unfolding_all decide) (by with_unfolding_all decide)⟩

lemma roiLoop_flows (vac expPct app ccp ri : ℚ) (total : ℕ) :
    ∀ (left year : ℕ) (rent value : ℚ),
      (roiLoop vac expPct app ccp ri total left year rent value).flows =
        (List.range left).map (fun k =>
          rent * (1 + ri) ^ k * 12 * (1 - vac) -
            value * (1 + app) ^ k * expPct +
            (if year + k = total then
              value * (1 + app) ^ (k + 1) * (1 - ccp) else 0)) := by
  intro left
  induction left with
  | zero =>
    intro year rent value
    simp [roiLoop]
  | succ n ih =>
    intro year rent value
    rw [roiLoop]
    simp only [ih, List.range_succ_eq_map, List.map_cons, List.map_map]
    congr 1
    · by_cases hy : year = total
      · simp only [Nat.add_zero, hy, if_pos rfl]
        ring
      · rw [if_neg (by omega : ¬ year + 0 = total), if_neg hy]
        ring
    · apply List.map_congr_left
      intro k _
      simp only [Function.comp_apply, Nat.succ_eq_add_one]
      by_cases hc : year + 1 + k = total
      · rw [if_pos hc, if_pos (by omega : year + (k + 1) = total)]
        ring
      · rw [if_neg hc, if_neg (by omega : ¬ year + (k + 1) = total)]
        ring

/-- C2: with positive purchase price and rent and a holding period of at
least one year, the simulation succeeds and its cash-flow vector for the
IRR is exactly the claimed vector: initial outlay -price*(1+closing),
then for each year t = 1..N the effective rent (escalated yearly) minus
expenses on the pre-appreciation property value, with the final year
adding post-appreciation sale proceeds net of closing costs. -/
theorem c2_simulate_roi_cashflows (p : ROIParams)
    (h1 : 0 < p.purchase_price_usd) (h2 : 0 < p.monthly_rent_usd)
    (h3 : 1 ≤ p.holding_period_years) :
    (∃ out, simulate_roi p = .ok out) ∧
      cashFlowsFor p = specCashFlows p := by
  have hcond : ¬(p.purchase_price_usd ≤ 0 ∨ p.monthly_rent_usd ≤ 0 ∨
      p.holding_period_years ≤ 0) := by
    push_neg
    exact ⟨h1, h2, by omega⟩
  constructor
  · rw [simulate_roi, if_neg hcond]
    exact ⟨_, rfl⟩
  · rw [cashFlowsFor, specCashFlows]
    simp only [roiLoop_flows]
    congr 1
    apply List.map_congr_left
    intro k _
    by_cases hc : k + 1 = p.holding_period_years.toNat
    · rw [if_pos (by omega : 1 + k = p.holding_period_years.toNat),
        if_pos hc, hc]
    · rw [if_neg (by omega : ¬ 1 + k = p.holding_period_years.toNat),
        if_neg hc]

theorem c2_witness :
    (∃ out, simulate_roi ⟨200000, 800, 10, 3, 2, 5, 6, 2⟩ = .ok out) ∧
      cashFlowsFor ⟨200000, 800, 10, 3, 2, 5, 6, 2⟩ =
        specCashFlows ⟨200000, 800, 10, 3, 2, 5, 6, 2⟩ :=
  c2_simulate_roi_cashflows ⟨200000, 800, 10, 3, 2, 5, 6, 2⟩
    (by norm_num) (by norm_num) (by norm_num)

set_option maxRecDepth 600000 in
/-- C3 counterexample: IRR is invariant under scaling the cash-flow
vector while NPV scales linearly, so the absolute 1e-4 round-trip bound
fails: at [-1e18, 1.21e18] the computed IRR (the same rational as for
[-1, 1.21]) leaves an NPV of about 21.76. -/
theorem c3_counterexample :
    ¬(∀ (cash_flows : List ℚ) (r : ℚ), compute_irr cash_flows = some r →
      |compute_npv r cash_flows| ≤ 1 / 10 ^ 4) := by
  intro hall
  have hs : (compute_irr [-(10 ^ 18 : ℚ), (121 / 100) * 10 ^ 18]).isSome
      = true := by
    with_unfolding_all decide
  obtain ⟨r, hr⟩ := Option.isSome_iff_exists.mp hs
  have hgd : (compute_irr [-(10 ^ 18 : ℚ), (121 / 100) * 10 ^ 18]).getD 0
      = r := by
    rw [hr]
    rfl
  have habs := hall _ r hr
  rw [← hgd] at habs
  exact absurd habs (by with_unfolding_all decide)

lemma irrLoop_ret (cash_flows : List ℚ) : ∀ (fuel : ℕ) (g r : ℚ),
    irrLoop cash_flows g fuel = some r →
    ∃ g0 npv d, npvAndDeriv g0 cash_flows 0 = some (npv, d) ∧
      ¬(|d| < 1 / 10 ^ 14) ∧ r = g0 - npv / d ∧ |r - g0| < 1 / 10 ^ 7 := by
  intro fuel
  induction fuel with
  | zero =>
    intro g r h
    simp [irrLoop] at h
  | succ n ih =>
    intro g r h
    rw [irrLoop] at h
    cases hnd : npvAndDeriv g cash_flows 0 with
    | none =>
      rw [hnd] at h
      exact absurd h (by simp)
    | some pr =>
      obtain ⟨npv, d⟩ := pr
      simp only [hnd] at h
      by_cases hd : |d| < 1 / 10 ^ 14
      · rw [if_pos hd] at h
        exact absurd h (by simp)
      · rw [if_neg hd] at h
        by_cases hstep : |g - npv / d - g| < 1 / 10 ^ 7
        · rw [if_pos hstep] at h
          obtain rfl := Option.some.inj h
          exact ⟨g, npv, d, hnd, hd, rfl, hstep⟩
        · rw [if_neg hstep] at h
          exact ih _ r h

/-- C3 (amended): whenever the IRR computation returns r, there is a
last Newton guess g with well-defined NPV and derivative there, the
derivative not below the 1e-14 cutoff, r equal to the Newton update of
g, and the update step smaller than 1e-7 in magnitude — this is the
only round-trip guarantee the algorithm gives; the absolute bound
NPV(r) ≈ 0 within 1e-4 fails for large-scale vectors. -/
theorem c3_irr_newton_guarantee (cash_flows : List ℚ) (r : ℚ)
    (h : compute_irr cash_flows = some r) :
    ∃ g npv d, npvAndDeriv g cash_flows 0 = some (npv, d) ∧
      ¬(|d| < 1 / 10 ^ 14) ∧ r = g - npv / d ∧ |r - g| < 1 / 10 ^ 7 := by
  rw [compute_irr] at h
  exact irrLoop_ret cash_flows 200 (1 / 10) r h

set_option maxRecDepth 600000 in
theorem c3_witness :
    ∃ g npv d, npvAndDeriv g [-1, 121 / 100] 0 = some (npv, d) ∧
      ¬(|d| < 1 / 10 ^ 14) ∧
      (compute_irr [-1, 121 / 100]).getD 0 = g - npv / d ∧
      |(compute_irr [-1, 121 / 100]).getD 0 - g| < 1 / 10 ^ 7 := by
  have hs : (compute_irr [-1, (121 / 100 : ℚ)]).isSome = true := by
    with_unfolding_all decide
  obtain ⟨r, hr⟩ := Option.isSome_iff_exists.mp hs
  have hgd : (compute_irr [-1, (121 / 100 : ℚ)]).getD 0 = r := by
    rw [hr]
    rfl
  rw [hgd]
  exact c3_irr_newton_guarantee _ r hr

lemma except_eq_ok_of_isSome {ε α : Type} (e : Except ε α)
    (h : e.toOption.isSome = true) : e = .ok (e.toOption.get h) := by
  cases e with
  | error a => exact absurd h (by simp [Except.toOption])
  | ok a => rfl

/-- C4: the IRR computation starts Newton-Raphson at guess 0.10 with an
iteration budget of 200; exhausted fuel yields none; a derivative below
1e-14 in magnitude yields none; a step below 1e-7 in magnitude returns
the updated guess; and the ROI simulation carries the optional IRR into
its output as irr_pct = round2(r*100) when present and null when not,
while always returning the other outputs for valid parameters. -/
theorem c4_irr_failure_semantics :
    (∀ cash_flows : List ℚ, compute_irr cash_flows =
      irrLoop cash_flows (1 / 10) 200) ∧
    (∀ (cash_flows : List ℚ) (g : ℚ), irrLoop cash_flows g 0 = none) ∧
    (∀ (cash_flows : List ℚ) (g : ℚ) (fuel : ℕ) (npv d : ℚ),
      npvAndDeriv g cash_flows 0 = some (npv, d) → |d| < 1 / 10 ^ 14 →
      irrLoop cash_flows g (fuel + 1) = none) ∧
    (∀ (cash_flows : List ℚ) (g : ℚ) (fuel : ℕ) (npv d : ℚ),
      npvAndDeriv g cash_flows 0 = some (npv, d) → ¬(|d| < 1 / 10 ^ 14) →
      |g - npv / d - g| < 1 / 10 ^ 7 →
      irrLoop cash_flows g (fuel + 1) = some (g - npv / d)) ∧
    (∀ (p : ROIParams) (out : ROIResult), simulate_roi p = .ok out →
      out.irr_pct = (compute_irr (cashFlowsFor p)).map
        (fun r => round2 (r * 100))) ∧
    (∀ p : ROIParams, ¬(p.purchase_price_usd ≤ 0 ∨
        p.monthly_rent_usd ≤ 0 ∨ p.holding_period_years ≤ 0) →
      ∃ out, simulate_roi p = .ok out) := by
  refine ⟨fun _ => rfl, fun _ _ => rfl, ?_, ?_, ?_, ?_⟩
  · intro cash_flows g fuel npv d hnd hd
    rw [irrLoop]
    simp only [hnd]
    rw [if_pos hd]
  · intro cash_flows g fuel npv d hnd hd hstep
    rw [irrLoop]
    simp only [hnd]
    rw [if_neg hd, if_pos hstep]
  · intro p out h
    rw [simulate_roi] at h
    by_cases hcond : p.purchase_price_usd ≤ 0 ∨ p.monthly_rent_usd ≤ 0 ∨
      p.holding_period_years ≤ 0
    · rw [if_pos hcond] at h
      exact absurd h (by simp)
    · rw [if_neg hcond] at h
      obtain rfl := Except.ok.inj h
      rfl
  · intro p hcond
    rw [simulate_roi, if_neg hcond]
    exact ⟨_, rfl⟩

theorem c4_witness :
    irrLoop [5] (1 / 10) 200 = none ∧
    irrLoop [-1, 11 / 10] (1 / 10) 200 =
      some (1 / 10 - 0 / (-(10 / 11))) ∧
    ((simulate_roi ⟨100, 5 / 6, 1, 0, 0, 0, 0, 0⟩).toOption.get
        (by with_unfolding_all decide)).irr_pct =
      (compute_irr (cashFlowsFor ⟨100, 5 / 6, 1, 0, 0, 0, 0, 0⟩)).map
        (fun r => round2 (r * 100)) ∧
    (∃ out, simulate_roi ⟨100, 5 / 6, 1, 0, 0, 0, 0, 0⟩ = .ok out) := by
  refine ⟨?_, ?_, ?_, ?_⟩
  · exact c4_irr_failure_semantics.2.2.1 [5] (1 / 10) 199 5 0
      (by with_unfolding_all decide) (by norm_num)
  · exact c4_irr_failure_semantics.2.2.2.1 [-1, 11 / 10] (1 / 10) 199 0
      (-(10 / 11)) (by with_unfolding_all decide)
      (by rw [abs_neg, abs_of_pos] <;> norm_num) (by norm_num)
  · exact c4_irr_failure_semantics.2.2.2.2.1 _ _
      (except_eq_ok_of_isSome _ (by with_unfolding_all decide))
  · exact c4_irr_failure_semantics.2.2.2.2.2 ⟨100, 5 / 6, 1, 0, 0, 0, 0, 0⟩
      (by push_neg; norm_num)

lemma rat_floor_eq (q : ℚ) : Rat.floor q = ⌊q⌋ :=
  (Rat.floor_def' q).trans Rat.floor_def.symm

lemma q_min?_le {l : List ℚ} {a b : ℚ} (h : l.min? = some a) (hb : b ∈ l) :
    a ≤ b :=
  (List.le_min?_iff (fun _ _ _ => le_min_iff) h).mp (le_refl a) b hb

lemma q_le_max? {l : List ℚ} {a b : ℚ} (h : l.max? = some a) (hb : b ∈ l) :
    b ≤ a :=
  (List.max?_le_iff (fun _ _ _ => max_le_iff) h).mp (le_refl a) b hb

lemma q_min?_mem {l : List ℚ} {a : ℚ} (h : l.min? = some a) : a ∈ l :=
  List.min?_mem (fun _ _ => min_choice _ _) h

lemma q_max?_mem {l : List ℚ} {a : ℚ} (h : l.max? = some a) : a ∈ l :=
  List.max?_mem (fun _ _ => max_choice _ _) h

lemma widthBucket_ge_one (v lo hi : ℚ) (B : ℕ) (hlo : lo ≤ v)
    (hhi : v < hi) : 1 ≤ widthBucket v lo hi B := by
  unfold widthBucket
  rw [if_neg (not_lt.mpr hlo), if_neg (not_le.mpr hhi)]
  omega

lemma widthBucket_le (v lo hi : ℚ) (B : ℕ) (hB : 1 ≤ B) (hlo : lo ≤ v)
    (hhi : v < hi) : widthBucket v lo hi B ≤ B := by
  unfold widthBucket
  rw [if_neg (not_lt.mpr hlo), if_neg (not_le.mpr hhi)]
  have hx : lo < hi := lt_of_le_of_lt hlo hhi
  have hden : (0 : ℚ) < hi - lo := by linarith
  have hBpos : (0 : ℚ) < qn B := by
    rw [qn_eq]
    exact_mod_cast hB
  have hratio : (v - lo) / (hi - lo) < 1 := by
    rw [div_lt_one hden]
    linarith
  have hmul : (v - lo) / (hi - lo) * qn B < qn B := by
    calc (v - lo) / (hi - lo) * qn B < 1 * qn B :=
          mul_lt_mul_of_pos_right hratio hBpos
      _ = qn B := one_mul _
  have hfl : Rat.floor ((v - lo) / (hi - lo) * qn B) < (B : ℤ) := by
    rw [rat_floor_eq]
    apply Int.floor_lt.mpr
    rw [qn_eq]
    rw [qn_eq] at hmul
    exact_mod_cast hmul
  omega

lemma list_map_sum_add {α : Type} (l : List α) (f g : α → ℕ) :
    (l.map (fun a => f a + g a)).sum = (l.map f).sum + (l.map g).sum := by
  induction l with
  | nil => rfl
  | cons a t ih =>
    simp only [List.map_cons, List.sum_cons, ih]
    omega

lemma range_indicator_sum (bp : ℕ) (h1 : 1 ≤ bp) : ∀ (B : ℕ), bp ≤ B →
    ((List.range B).map (fun j => if bp = j + 1 then 1 else 0)).sum = 1 := by
  intro B
  induction B with
  | zero => omega
  | succ n ih =>
    intro hle
    rw [List.range_succ, List.map_append, List.sum_append]
    by_cases hb : bp = n + 1
    · have hz : ((List.range n).map
          (fun j => if bp = j + 1 then 1 else 0)).sum = 0 := by
        apply List.sum_eq_zero
        intro x hx
        obtain ⟨j, hj, rfl⟩ := List.mem_map.mp hx
        have hjn := List.mem_range.mp hj
        rw [if_neg (by omega)]
      rw [hz]
      simp [hb]
    · have hle2 : bp ≤ n := by omega
      rw [ih hle2]
      simp [hb]

lemma sum_filter_bucket (f : ℚ → ℕ) (B : ℕ) : ∀ (l : List ℚ),
    (∀ p ∈ l, 1 ≤ f p ∧ f p ≤ B) →
    ((List.range B).map
      (fun j => (l.filter (fun v => f v = j + 1)).length)).sum = l.length := by
  intro l
  induction l with
  | nil =>
    intro _
    simp
  | cons p t ih =>
    intro hall
    have hsplit : ∀ j : ℕ, ((p :: t).filter (fun v => f v = j + 1)).length =
        (if f p = j + 1 then 1 else 0) +
          (t.filter (fun v => f v = j + 1)).length := by
      intro j
      by_cases h : f p = j + 1 <;> simp [List.filter_cons, h] <;> omega
    simp only [hsplit, list_map_sum_add]
    have hp := hall p (List.mem_cons_self p t)
    rw [range_indicator_sum (f p) hp.1 B hp.2,
      ih (fun q hq => hall q (List.mem_cons_of_mem p hq))]
    simp [List.length_cons]
    omega

/-- C8: for at least one bin, the histogram returns an empty payload on
no qualifying prices, a single [min, max] bin with the full count when
the bin width is degenerate, and otherwise exactly `bins` bins whose
counts sum to the number of qualifying prices. -/
theorem c8_price_distribution (listings : List ListingRow)
    (barrioFilter : Option ℕ) (bins : ℕ) (hbins : 1 ≤ bins) :
    (pdPrices listings barrioFilter = [] →
      get_price_distribution listings barrioFilter bins = ⟨[], 0, none⟩) ∧
    (∀ minP maxP, (pdPrices listings barrioFilter).min? = some minP →
      (pdPrices listings barrioFilter).max? = some maxP →
      (((maxP - minP) / qn bins ≤ 0 →
        get_price_distribution listings barrioFilter bins =
          ⟨[⟨minP, maxP, (pdPrices listings barrioFilter).length⟩],
            (pdPrices listings barrioFilter).length, none⟩) ∧
       (0 < (maxP - minP) / qn bins →
        (get_price_distribution listings barrioFilter bins).bins.length
            = bins ∧
        ((get_price_distribution listings barrioFilter bins).bins.map
            (fun b => b.count)).sum =
          (pdPrices listings barrioFilter).length ∧
        (get_price_distribution listings barrioFilter bins).total =
          (pdPrices listings barrioFilter).length))) := by
  constructor
  · intro hempty
    simp [get_price_distribution, hempty]
  · intro minP maxP hmin hmax
    constructor
    · intro hdeg
      simp only [get_price_distribution, hmin, hmax]
      rw [if_pos hdeg]
    · intro hpos
      simp only [get_price_distribution, hmin, hmax]
      rw [if_neg (not_le.mpr hpos)]
      refine ⟨by simp, ?_, rfl⟩
      simp only [List.map_map]
      apply sum_filter_bucket
        (fun v => widthBucket v minP (maxP + 1 / 100) bins) bins
      intro p hp
      have hlo : minP ≤ p := q_min?_le hmin hp
      have hhi : p < maxP + 1 / 100 := by
        have := q_le_max? hmax hp
        linarith
      exact ⟨widthBucket_ge_one p minP (maxP + 1 / 100) bins hlo hhi,
        widthBucket_le p minP (maxP + 1 / 100) bins hbins hlo hhi⟩

theorem c8_witness :
    (get_price_distribution [] none 5 = ⟨[], 0, none⟩) ∧
    ((get_price_distribution
        [⟨1, "sale", true, some 100, none, none, 0, 0⟩,
         ⟨1, "sale", true, some 200, none, none, 0, 0⟩] none 2).bins.length
      = 2 ∧
    ((get_price_distribution
        [⟨1, "sale", true, some 100, none, none, 0, 0⟩,
         ⟨1, "sale", true, some 200, none, none, 0, 0⟩] none 2).bins.map
        (fun b => b.count)).sum =
      (pdPrices [⟨1, "sale", true, some 100, none, none, 0, 0⟩,
         ⟨1, "sale", true, some 200, none, none, 0, 0⟩] none).length ∧
    (get_price_distribution
        [⟨1, "sale", true, some 100, none, none, 0, 0⟩,
         ⟨1, "sale", true, some 200, none, none, 0, 0⟩] none 2).total =
      (pdPrices [⟨1, "sale", true, some 100, none, none, 0, 0⟩,
         ⟨1, "sale", true, some 200, none, none, 0, 0⟩] none).length) := by
  constructor
  · exact (c8_price_distribution [] none 5 (by norm_num)).1 rfl
  · refine ((c8_price_distribution _ none 2 (by norm_num)).2 100 200
      (by with_unfolding_all decide) (by with_unfolding_all decide)).2 ?_
    have h2 : qn 2 = 2 := by
      rw [qn_eq]
      norm_num
    rw [h2]
    norm_num

lemma upsert_present_self (store : List SnapshotRow) (k : SnapKey)
    (d : SnapshotData) : ∃ r ∈ upsertSnapshot store k d, r.key = k := by
  unfold upsertSnapshot
  by_cases hany : store.any (fun r => r.key = k)
  · rw [if_pos hany]
    obtain ⟨r, hr, hk⟩ := List.any_eq_true.mp hany
    refine ⟨{ r with data := d }, ?_, ?_⟩
    · apply List.mem_map.mpr
      exact ⟨r, hr, by simp [of_decide_eq_true hk]⟩
    · simpa using of_decide_eq_true hk
  · rw [if_neg hany]
    exact ⟨⟨k, d, none⟩, List.mem_append_right _ (List.mem_singleton.mpr rfl),
      rfl⟩

lemma upsert_present_mono (store : List SnapshotRow) (k k2 : SnapKey)
    (d2 : SnapshotData) (h : ∃ r ∈ store, r.key = k) :
    ∃ r ∈ upsertSnapshot store k2 d2, r.key = k := by
  obtain ⟨r, hr, hk⟩ := h
  unfold upsertSnapshot
  by_cases hany : store.any (fun r => r.key = k2)
  · rw [if_pos hany]
    by_cases hk2 : r.key = k2
    · exact ⟨{ r with data := d2 },
        List.mem_map.mpr ⟨r, hr, by simp [hk2]⟩, by simpa using hk⟩
    · exact ⟨r, List.mem_map.mpr ⟨r, hr, by simp [hk2]⟩, hk⟩
  · rw [if_neg hany]
    exact ⟨r, List.mem_append_left _ hr, hk⟩

lemma upsert_absent (store : List SnapshotRow) (k k2 : SnapKey)
    (d2 : SnapshotData) (h : ∀ r ∈ store, r.key ≠ k) (hne : k2 ≠ k) :
    ∀ r ∈ upsertSnapshot store k2 d2, r.key ≠ k := by
  intro r hr
  unfold upsertSnapshot at hr
  by_cases hany : store.any (fun r => r.key = k2)
  · rw [if_pos hany] at hr
    obtain ⟨r0, hr0, rfl⟩ := List.mem_map.mp hr
    by_cases hk2 : r0.key = k2
    · simpa [hk2] using hne
    · simpa [hk2] using h r0 hr0
  · rw [if_neg hany] at hr
    rcases List.mem_append.mp hr with hl | hr1
    · exact h r hl
    · rw [List.mem_singleton.mp hr1]
      exact hne

lemma upsert_data_of_key (store : List SnapshotRow) (k : SnapKey)
    (d : SnapshotData) :
    ∀ r ∈ upsertSnapshot store k d, r.key = k → r.data = d := by
  intro r hr hk
  unfold upsertSnapshot at hr
  by_cases hany : store.any (fun r => r.key = k)
  · rw [if_pos hany] at hr
    obtain ⟨r0, hr0, rfl⟩ := List.mem_map.mp hr
    by_cases hk0 : r0.key = k
    · simp [hk0]
    · rw [if_neg hk0] at hk ⊢
      exact absurd hk hk0
  · rw [if_neg hany] at hr
    rcases List.mem_append.mp hr with hl | hr1
    · exfalso
      have : store.any (fun r => r.key = k) := by
        apply List.any_eq_true.mpr
        exact ⟨r, hl, by simp [hk]⟩
      exact hany this
    · rw [List.mem_singleton.mp hr1]

lemma upsert_preserves_data (store : List SnapshotRow) (k k2 : SnapKey)
    (d d2 : SnapshotData) (hcomp : k2 = k → d2 = d)
    (h : ∀ r ∈ store, r.key = k → r.data = d) :
    ∀ r ∈ upsertSnapshot store k2 d2, r.key = k → r.data = d := by
  intro r hr hk
  unfold upsertSnapshot at hr
  by_cases hany : store.any (fun r => r.key = k2)
  · rw [if_pos hany] at hr
    obtain ⟨r0, hr0, rfl⟩ := List.mem_map.mp hr
    by_cases hk0 : r0.key = k2
    · rw [if_pos hk0] at hk ⊢
      simp only at hk ⊢
      exact hcomp (hk0.symm.trans hk ▸ rfl) ▸ rfl
    · rw [if_neg hk0] at hk ⊢
      exact h r0 hr0 hk
  · rw [if_neg hany] at hr
    rcases List.mem_append.mp hr with hl | hr1
    · exact h r hl hk
    · rw [List.mem_singleton.mp hr1] at hk ⊢
      exact hcomp hk

lemma upsert_id (store : List SnapshotRow) (k : SnapKey) (d : SnapshotData)
    (hpresent : ∃ r ∈ store, r.key = k)
    (hdata : ∀ r ∈ store, r.key = k → r.data = d) :
    upsertSnapshot store k d = store := by
  unfold upsertSnapshot
  obtain ⟨r0, hr0, hk0⟩ := hpresent
  rw [if_pos (List.any_eq_true.mpr ⟨r0, hr0, by simp [hk0]⟩)]
  have : ∀ r ∈ store, (if r.key = k then { r with data := d } else r) = r := by
    intro r hr
    by_cases hk : r.key = k
    · rw [if_pos hk]
      have hd := hdata r hr hk
      cases r
      simp only at hd
      simp [hd]
    · rw [if_neg hk]
  rw [List.map_congr_left this]
  exact List.map_id' store

lemma upsert_keys_nodup (store : List SnapshotRow) (k : SnapKey)
    (d : SnapshotData) (h : (store.map (fun r => r.key)).Nodup) :
    ((upsertSnapshot store k d).map (fun r => r.key)).Nodup := by
  unfold upsertSnapshot
  by_cases hany : store.any (fun r => r.key = k)
  · rw [if_pos hany]
    have hkeys : (store.map (fun r => if r.key = k then { r with data := d }
        else r)).map (fun r => r.key) = store.map (fun r => r.key) := by
      rw [List.map_map]
      apply List.map_congr_left
      intro r _
      by_cases hk : r.key = k
      · simp [hk]
      · simp [hk]
    rw [hkeys]
    exact h
  · rw [if_neg hany]
    rw [List.map_append]
    apply List.Nodup.append h (by simp)
    intro a ha hb
    simp only [List.map_cons, List.map_nil, List.mem_singleton] at hb
    subst hb
    obtain ⟨r, hr, hk⟩ := List.mem_map.mp ha
    exact hany (List.any_eq_true.mpr ⟨r, hr, by simp [hk]⟩)

lemma pairs_key_characterize (listings : List ListingRow)
    (barrioIds : List ℕ) (opTypes : List String) (today : ℤ)
    (blueRate : Option ℚ) (kd : SnapKey × SnapshotData)
    (h : kd ∈ snapshotPairs listings barrioIds opTypes today blueRate) :
    ∃ b ∈ barrioIds, ∃ o ∈ opTypes, ∃ dd,
      compute_snapshot_for_group listings b o today = some dd ∧
      kd = ((b, today, o, none), { dd with usd_blue_rate := blueRate }) := by
  unfold snapshotPairs at h
  obtain ⟨b, hb, hmem⟩ := List.mem_flatMap.mp h
  obtain ⟨o, ho, hsome⟩ := List.mem_filterMap.mp hmem
  obtain ⟨dd, hdd, hkd⟩ := Option.map_eq_some'.mp hsome
  exact ⟨b, hb, o, ho, dd, hdd, hkd.symm⟩

lemma pairs_mem_of_some (listings : List ListingRow) (barrioIds : List ℕ)
    (opTypes : List String) (today : ℤ) (blueRate : Option ℚ)
    (bid : ℕ) (op : String) (dd : SnapshotData)
    (hb : bid ∈ barrioIds) (ho : op ∈ opTypes)
    (hsome : compute_snapshot_for_group listings bid op today = some dd) :
    ((bid, today, op, (none : Option String)),
        { dd with usd_blue_rate := blueRate }) ∈
      snapshotPairs listings barrioIds opTypes today blueRate := by
  unfold snapshotPairs
  apply List.mem_flatMap.mpr
  refine ⟨bid, hb, ?_⟩
  apply List.mem_filterMap.mpr
  refine ⟨op, ho, ?_⟩
  rw [hsome]
  rfl

lemma pairs_key_functional (listings : List ListingRow)
    (barrioIds : List ℕ) (opTypes : List String) (today : ℤ)
    (blueRate : Option ℚ) (kd1 kd2 : SnapKey × SnapshotData)
    (h1 : kd1 ∈ snapshotPairs listings barrioIds opTypes today blueRate)
    (h2 : kd2 ∈ snapshotPairs listings barrioIds opTypes today blueRate)
    (hk : kd1.1 = kd2.1) : kd1.2 = kd2.2 := by
  obtain ⟨b1, _, o1, _, d1, hd1, rfl⟩ :=
    pairs_key_characterize _ _ _ _ _ _ h1
  obtain ⟨b2, _, o2, _, d2, hd2, rfl⟩ :=
    pairs_key_characterize _ _ _ _ _ _ h2
  simp only [Prod.mk.injEq] at hk
  obtain ⟨hb, _, ho, _⟩ := hk
  subst hb
  subst ho
  rw [hd1] at hd2
  obtain rfl := Option.some.inj hd2
  rfl

lemma fold_upsert_absent (k : SnapKey) :
    ∀ (pairs : List (SnapKey × SnapshotData)) (store : List SnapshotRow),
      (∀ kd ∈ pairs, kd.1 ≠ k) → (∀ r ∈ store, r.key ≠ k) →
      ∀ r ∈ pairs.foldl (fun st kd => upsertSnapshot st kd.1 kd.2) store,
        r.key ≠ k := by
  intro pairs
  induction pairs with
  | nil =>
    intro store _ habs
    exact habs
  | cons kd rest ih =>
    intro store hkeys habs
    rw [List.foldl_cons]
    exact ih _ (fun kd2 h2 => hkeys kd2 (List.mem_cons_of_mem kd h2))
      (upsert_absent store k kd.1 kd.2 habs
        (hkeys kd (List.mem_cons_self kd rest)))

lemma fold_upsert_present (k : SnapKey) :
    ∀ (pairs : List (SnapKey × SnapshotData)) (store : List SnapshotRow),
      ((∃ kd ∈ pairs, kd.1 = k) ∨ ∃ r ∈ store, r.key = k) →
      ∃ r ∈ pairs.foldl (fun st kd => upsertSnapshot st kd.1 kd.2) store,
        r.key = k := by
  intro pairs
  induction pairs with
  | nil =>
    intro store h
    rcases h with h | h
    · obtain ⟨kd, hkd, _⟩ := h
      exact absurd hkd (List.not_mem_nil kd)
    · exact h
  | cons kd rest ih =>
    intro store h
    rw [List.foldl_cons]
    rcases h with h | h
    · obtain ⟨kd2, hkd2, hk2⟩ := h
      rcases List.mem_cons.mp hkd2 with rfl | htail
      · exact ih _ (Or.inr (hk2 ▸ upsert_present_self store kd2.1 kd2.2))
      · exact ih _ (Or.inl ⟨kd2, htail, hk2⟩)
    · exact ih _ (Or.inr (upsert_present_mono store k kd.1 kd.2 h))

lemma fold_upsert_preserves_data (k : SnapKey) (d : SnapshotData) :
    ∀ (pairs : List (SnapKey × SnapshotData)) (store : List SnapshotRow),
      (∀ kd ∈ pairs, kd.1 = k → kd.2 = d) →
      (∀ r ∈ store, r.key = k → r.data = d) →
      ∀ r ∈ pairs.foldl (fun st kd => upsertSnapshot st kd.1 kd.2) store,
        r.key = k → r.data = d := by
  intro pairs
  induction pairs with
  | nil =>
    intro store _ hd
    exact hd
  | cons kd rest ih =>
    intro store hfun hd
    rw [List.foldl_cons]
    exact ih _ (fun kd2 h2 => hfun kd2 (List.mem_cons_of_mem kd h2))
      (upsert_preserves_data store k kd.1 d kd.2
        (fun he => hfun kd (List.mem_cons_self kd rest) he) hd)

lemma fold_upsert_post (pairs : List (SnapKey × SnapshotData)) :
    ∀ (store : List SnapshotRow)
      (hfun : ∀ kd1 ∈ pairs, ∀ kd2 ∈ pairs, kd1.1 = kd2.1 → kd1.2 = kd2.2),
      ∀ kd ∈ pairs,
        (∃ r ∈ pairs.foldl (fun st p => upsertSnapshot st p.1 p.2) store,
          r.key = kd.1) ∧
        (∀ r ∈ pairs.foldl (fun st p => upsertSnapshot st p.1 p.2) store,
          r.key = kd.1 → r.data = kd.2) := by
  induction pairs with
  | nil =>
    intro store _ kd hkd
    exact absurd hkd (List.not_mem_nil kd)
  | cons p rest ih =>
    intro store hfun kd hkd
    rw [List.foldl_cons]
    rcases List.mem_cons.mp hkd with rfl | htail
    · constructor
      · exact fold_upsert_present kd.1 rest _
          (Or.inr (upsert_present_self store kd.1 kd.2))
      · apply fold_upsert_preserves_data kd.1 kd.2 rest _
        · intro kd2 h2 hk2
          exact hfun kd2 (List.mem_cons_of_mem _ h2) kd
            (List.mem_cons_self _ _) hk2
        · exact upsert_data_of_key store kd.1 kd.2
    · exact ih _ (fun kd1 h1 kd2 h2 =>
        hfun kd1 (List.mem_cons_of_mem p h1) kd2 (List.mem_cons_of_mem p h2))
        kd htail

lemma fold_upsert_id (pairs : List (SnapKey × SnapshotData)) :
    ∀ (store : List SnapshotRow),
      (∀ kd ∈ pairs, (∃ r ∈ store, r.key = kd.1) ∧
        (∀ r ∈ store, r.key = kd.1 → r.data = kd.2)) →
      pairs.foldl (fun st p => upsertSnapshot st p.1 p.2) store = store := by
  induction pairs with
  | nil =>
    intro store _
    rfl
  | cons p rest ih =>
    intro store hpost
    rw [List.foldl_cons]
    have hp := hpost p (List.mem_cons_self p rest)
    rw [upsert_id store p.1 p.2 hp.1 hp.2]
    exact ih store (fun kd hkd => hpost kd (List.mem_cons_of_mem p hkd))

lemma fold_upsert_keys_nodup (pairs : List (SnapKey × SnapshotData)) :
    ∀ (store : List SnapshotRow),
      ((store.map (fun r => r.key)).Nodup) →
      (((pairs.foldl (fun st p => upsertSnapshot st p.1 p.2) store).map
        (fun r => r.key)).Nodup) := by
  induction pairs with
  | nil =>
    intro store h
    exact h
  | cons p rest ih =>
    intro store h
    rw [List.foldl_cons]
    exact ih _ (upsert_keys_nodup store p.1 p.2 h)

/-- C7: the snapshot upsert preserves key uniqueness and fully replaces
the derived fields of the row at its key (inserting a fresh row when the
key is absent), and the daily snapshot run both preserves key uniqueness
and is idempotent: running it a second time over the same listings,
date and rate leaves the store exactly as after the first run. -/
theorem c7_snapshot_upsert_idempotent :
    (∀ (store : List SnapshotRow) (k : SnapKey) (d : SnapshotData),
      (store.map (fun r => r.key)).Nodup →
      ((upsertSnapshot store k d).map (fun r => r.key)).Nodup) ∧
    (∀ (store : List SnapshotRow) (k : SnapKey) (d : SnapshotData),
      ∀ r ∈ upsertSnapshot store k d, r.key = k → r.data = d) ∧
    (∀ (store : List SnapshotRow) (k : SnapKey) (d : SnapshotData),
      ∃ r ∈ upsertSnapshot store k d, r.key = k) ∧
    (∀ (listings : List ListingRow) (barrioIds : List ℕ)
      (opTypes : List String) (today : ℤ) (blueRate : Option ℚ)
      (store : List SnapshotRow),
      (store.map (fun r => r.key)).Nodup →
      ((compute_daily_snapshots listings barrioIds opTypes today blueRate
        store).map (fun r => r.key)).Nodup) ∧
    (∀ (listings : List ListingRow) (barrioIds : List ℕ)
      (opTypes : List String) (today : ℤ) (blueRate : Option ℚ)
      (store : List SnapshotRow),
      compute_daily_snapshots listings barrioIds opTypes today blueRate
        (compute_daily_snapshots listings barrioIds opTypes today blueRate
          store) =
      compute_daily_snapshots listings barrioIds opTypes today blueRate
        store) := by
  refine ⟨upsert_keys_nodup, upsert_data_of_key, upsert_present_self,
    ?_, ?_⟩
  · intro listings barrioIds opTypes today blueRate store h
    exact fold_upsert_keys_nodup _ store h
  · intro listings barrioIds opTypes today blueRate store
    unfold compute_daily_snapshots
    have hfun : ∀ kd1 ∈ snapshotPairs listings barrioIds opTypes today
        blueRate, ∀ kd2 ∈ snapshotPairs listings barrioIds opTypes today
        blueRate, kd1.1 = kd2.1 → kd1.2 = kd2.2 :=
      fun kd1 h1 kd2 h2 =>
        pairs_key_functional listings barrioIds opTypes today blueRate
          kd1 kd2 h1 h2
    apply fold_upsert_id
    intro kd hkd
    exact fold_upsert_post _ store hfun kd hkd

theorem c7_witness :
    (((upsertSnapshot [] (1, 100, "sale", none)
        ⟨1, none, none, none, none, none, 0, 0, none⟩).map
      (fun r => r.key)).Nodup) ∧
    ((compute_daily_snapshots
        [⟨1, "sale", true, some 100, some 10, some 5, 0, 0⟩] [1] ["sale"]
        100 (some 1000) []).map (fun r => r.key)).Nodup := by
  constructor
  · exact c7_snapshot_upsert_idempotent.1 [] (1, 100, "sale", none)
      ⟨1, none, none, none, none, none, 0, 0, none⟩ (by simp)
  · exact c7_snapshot_upsert_idempotent.2.2.2.1
      [⟨1, "sale", true, some 100, some 10, some 5, 0, 0⟩] [1] ["sale"]
      100 (some 1000) [] (by simp)

/-- C9 counterexample: a group containing only an active listing with a
zero (non-null) price and positive covered area has no listing with
positive price, yet the aggregation still produces a snapshot row — the
source filter only requires the price to be non-null. -/
theorem c9_counterexample :
    ([⟨1, "sale", true, some 0, some 10, none, 0, 0⟩] :
        List ListingRow).filter (qualifiesPositive 1 "sale") = [] ∧
    compute_snapshot_for_group
      [⟨1, "sale", true, some 0, some 10, none, 0, 0⟩] 1 "sale" 100 ≠
      none := by
  constructor
  · with_unfolding_all decide
  · with_unfolding_all decide

/-- C9 (amended): a group has a snapshot row exactly when it has at
least one active listing with a non-null price and positive covered
area; the daily run writes no row at the key of an empty group and
writes a row at the key of a non-empty group. -/
theorem c9_empty_group_no_row (listings : List ListingRow) (bid : ℕ)
    (op : String) (today : ℤ) :
    (listings.filter (snapQualifies bid op) = [] ↔
      compute_snapshot_for_group listings bid op today = none) ∧
    (∀ (barrioIds : List ℕ) (opTypes : List String) (blueRate : Option ℚ)
      (store : List SnapshotRow),
      compute_snapshot_for_group listings bid op today = none →
      (∀ r ∈ store, r.key ≠ (bid, today, op, none)) →
      ∀ r ∈ compute_daily_snapshots listings barrioIds opTypes today
          blueRate store, r.key ≠ (bid, today, op, none)) ∧
    (∀ (barrioIds : List ℕ) (opTypes : List String) (blueRate : Option ℚ)
      (store : List SnapshotRow), bid ∈ barrioIds → op ∈ opTypes →
      listings.filter (snapQualifies bid op) ≠ [] →
      ∃ r ∈ compute_daily_snapshots listings barrioIds opTypes today
          blueRate store, r.key = (bid, today, op, none)) := by
  have hiff : listings.filter (snapQualifies bid op) = [] ↔
      compute_snapshot_for_group listings bid op today = none := by
    constructor
    · intro h
      unfold compute_snapshot_for_group
      rw [if_pos (by simp [h])]
    · intro h
      by_cases hf : listings.filter (snapQualifies bid op) = []
      · exact hf
      · exfalso
        unfold compute_snapshot_for_group at h
        rw [if_neg (by simpa using hf)] at h
        exact absurd h (by simp)
  refine ⟨hiff, ?_, ?_⟩
  · intro barrioIds opTypes blueRate store hnone habs
    unfold compute_daily_snapshots
    apply fold_upsert_absent _ _ store _ habs
    intro kd hkd hk
    obtain ⟨b, _, o, _, dd, hdd, rfl⟩ :=
      pairs_key_characterize _ _ _ _ _ _ hkd
    simp only [Prod.mk.injEq] at hk
    obtain ⟨rfl, _, rfl, _⟩ := hk
    rw [hnone] at hdd
    exact absurd hdd (by simp)
  · intro barrioIds opTypes blueRate store hb ho hne
    have hsome : compute_snapshot_for_group listings bid op today ≠ none :=
      fun h => hne (hiff.mpr h)
    obtain ⟨dd, hdd⟩ := Option.ne_none_iff_exists'.mp hsome
    unfold compute_daily_snapshots
    apply fold_upsert_present
    exact Or.inl ⟨((bid, today, op, none),
      { dd with usd_blue_rate := blueRate }),
      pairs_mem_of_some listings barrioIds opTypes today blueRate bid op dd
        hb ho hdd, rfl⟩

theorem c9_witness :
    (compute_snapshot_for_group
      [⟨1, "sale", true, some 100, some 10, some 5, 0, 0⟩] 2 "sale" 100 =
      none) ∧
    (∃ r ∈ compute_daily_snapshots
        [⟨1, "sale", true, some 100, some 10, some 5, 0, 0⟩] [1] ["sale"]
        100 (some 1000) [], r.key = (1, 100, "sale", none)) := by
  constructor
  · exact (c9_empty_group_no_row
      [⟨1, "sale", true, some 100, some 10, some 5, 0, 0⟩] 2 "sale"
      100).1.mp (by with_unfolding_all decide)
  · exact (c9_empty_group_no_row
      [⟨1, "sale", true, some 100, some 10, some 5, 0, 0⟩] 1 "sale"
      100).2.2 [1] ["sale"] (some 1000) [] (by simp) (by simp)
      (by with_unfolding_all decide)
